import Mathlib

/-!
Shallow embedding of `custom_vector<T>` (src/CustomVector/custom_vector.h).

The container state is the three raw pointers `begin_`, `end_`, `tail_`
(modelled as natural-number addresses, `0` playing the role of `nullptr`),
together with an explicit memory: a bump allocator cursor, the list of
currently allocated raw blocks, the association list of live (constructed)
objects, and a trace of construction / destruction / allocation /
deallocation events.  Fallibility of `new (std::nothrow)` and of the
per-element transfer constructors during reallocation is supplied by an
environment `Env`; a C++ exception escaping a function is the outcome
`Outcome.thrown`, a normal return is `Outcome.ok`.
-/

namespace CustomVector

/-! ### Single-precision float model for the growth computation

`get_new_scaled_capacity` computes `(size_t)(current_cap * scale_factor())`
with `scale_factor()` the `float` constant `1.5`.  We model IEEE-754 binary32
arithmetic (FLT_EVAL_METHOD = 0): the `size_t` operand is first converted to
`float` (round to nearest, ties to even, 24-bit significand), the product
with 1.5 is rounded to `float` again, and the cast to `size_t` truncates
toward zero.  Working with the value scaled by 2 keeps everything in ℕ. -/

/-- Round `x` to the nearest multiple of `u` (`u > 0`), ties to the even
multiple. -/
def rne (x u : ℕ) : ℕ :=
  let d := x / u
  let r := x % u
  if 2 * r < u then d * u
  else if u < 2 * r then (d + 1) * u
  else if d % 2 = 0 then d * u else (d + 1) * u

/-- Structural floor-log2 (fuel-driven so that it reduces in the kernel):
`flog2 n` is the position of the highest set bit of `n` (0 for `n ≤ 1`). -/
def log2fuel : ℕ → ℕ → ℕ
  | 0, _ => 0
  | fuel + 1, n => if n < 2 then 0 else log2fuel fuel (n / 2) + 1

/-- Floor of the base-2 logarithm. -/
def flog2 (n : ℕ) : ℕ := log2fuel n n

/-- Conversion of a nonnegative integer (`size_t` value) to `float`:
integers below 2^24 are exact; larger ones round to a 24-bit significand,
nearest, ties to even.  The result is again an integer. -/
def fl32OfNat (n : ℕ) : ℕ :=
  if n < 2 ^ 24 then n else rne n (2 ^ (flog2 n - 23))

/-- `(size_t)(f * 1.5f)` for an exactly representable nonnegative integer
float `f`: the exact product is `3*f/2`; if `3*f < 2^24` the product is
exactly representable (half-integers below 2^23 are floats) and truncation
gives `3*f/2` rounded down; otherwise the product rounds to a 24-bit
significand first (ties to even), then truncates. -/
def floatMul3Half (f : ℕ) : ℕ :=
  let t := 3 * f
  if t < 2 ^ 24 then t / 2 else rne t (2 ^ (flog2 t - 23)) / 2

/-! ### Events, memory and container state -/

/-- Observable storage events: element construction/destruction at an
address, raw block allocation/deallocation. -/
inductive Event where
  | ctorEv (addr : ℕ)
  | dtorEv (addr : ℕ)
  | allocEv (base len : ℕ)
  | freeEv (base : ℕ)
deriving DecidableEq, Repr

/-- The heap: a bump allocator (`next` is the base of the next block, never
reused, starting at 1 so that 0 can stand for `nullptr`), the currently
allocated raw blocks `(base, length-in-elements)`, the live constructed
objects, and the event trace. -/
structure Mem (α : Type) where
  next : ℕ
  blocks : List (ℕ × ℕ)
  live : List (ℕ × α)
  trace : List Event
deriving DecidableEq, Repr

/-- The three pointer members of `custom_vector`: `begin_`, `end_`,
`tail_`, as element-granular addresses, `0` for `nullptr`. -/
structure CV where
  begin_ : ℕ
  end_ : ℕ
  tail_ : ℕ
deriving DecidableEq, Repr

/-- The initial heap: nothing allocated, first address 1. -/
def memInit (α : Type) : Mem α := ⟨1, [], [], []⟩

/-- The value of the live object at address `a`, if one is constructed
there. -/
def Mem.lookupLive {α : Type} (m : Mem α) (a : ℕ) : Option α :=
  (m.live.find? (fun p => p.1 == a)).map (fun p => p.2)

/-- Placement-construct a value at address `a` (`new (as_t(p)) T{...}`). -/
def Mem.insertLive {α : Type} (m : Mem α) (a : ℕ) (v : α) : Mem α :=
  { m with live := (a, v) :: m.live, trace := m.trace ++ [Event.ctorEv a] }

/-- Run the destructor of the object at address `a`. -/
def Mem.destroyOne {α : Type} (m : Mem α) (a : ℕ) : Mem α :=
  { m with live := m.live.filter (fun p => p.1 != a),
           trace := m.trace ++ [Event.dtorEv a] }

/-- `std::destroy` over the address range `[s, s+c)`, in forward order. -/
def destroyN {α : Type} (s : ℕ) : ℕ → Mem α → Mem α
  | 0, m => m
  | c + 1, m => destroyN (s + 1) c (m.destroyOne s)

/-- `delete[] base`: no-op on `nullptr`, otherwise releases the block. -/
def Mem.freeBlock {α : Type} (m : Mem α) (base : ℕ) : Mem α :=
  if base = 0 then m
  else { m with blocks := m.blocks.filter (fun p => p.1 != base),
                trace := m.trace ++ [Event.freeEv base] }

/-! ### The public observers

`size()` is `(begin_ && end_) ? std::distance(begin_, end_) : 0` returning
`size_t`; the `ptrdiff_t` result converts to `size_t` modulo 2^64.  During
`reallocate` it is briefly evaluated on a mix of old and new pointers, so
the signed distance and the wraparound must be modelled faithfully. -/

/-- `std::distance(b, e)` guarded by `(b && e)`, as a signed quantity. -/
def ptrDistance (b e : ℕ) : ℤ :=
  if b ≠ 0 ∧ e ≠ 0 then (e : ℤ) - (b : ℤ) else 0

/-- Conversion of a `ptrdiff_t` to `size_t` (modulo 2^64). -/
def ptrDiffToSize (d : ℤ) : ℕ := (d % (2 : ℤ) ^ 64).toNat

/-- `size()`. -/
def CV.size (cv : CV) : ℕ := ptrDiffToSize (ptrDistance cv.begin_ cv.end_)

/-- `capacity()`. -/
def CV.capacity (cv : CV) : ℕ := ptrDiffToSize (ptrDistance cv.begin_ cv.tail_)

/-- `empty()`. -/
def CV.empty (cv : CV) : Bool := cv.size == 0

/-- `full()` (private). -/
def CV.full (cv : CV) : Bool := cv.size == cv.capacity

/-- `get_new_scaled_capacity()`:
`std::max((size_t)(current_cap * scale_factor()), current_cap + 1)` with
`scale_factor()` the process-wide `float` constant 1.5. -/
def CV.get_new_scaled_capacity (cv : CV) : ℕ :=
  max (floatMul3Half (fl32OfNat cv.capacity)) (cv.capacity + 1)

/-! ### Failure environment and operations -/

/-- Environment feeding the fallible primitives of one operation:
whether `new (std::nothrow)` succeeds, at which transfer-loop index (if
any) the element constructor throws, and whether that exception derives
from `std::exception` (the only category `reallocate` catches). -/
structure Env where
  allocOK : Bool
  failAt : Option ℕ
  failStd : Bool
deriving DecidableEq, Repr

/-- An environment in which nothing fails. -/
def envOK : Env := ⟨true, none, true⟩

/-- Normal return vs. an exception escaping the operation. -/
inductive Outcome where
  | ok
  | thrown
deriving DecidableEq, Repr

/-- The transfer loop of `reallocate`:
`for (old_it = old_begin; old_it != end_; ++old_it, ++new_it)
   new (as_t(new_it)) T{ std::move_if_noexcept(*as_t(old_it)) };`
Reading an unconstructed slot is undefined behaviour in C++; the model
yields `default`.  On a throw the loop stops with the failing index and
the memory as mutated so far. -/
def transferAux {α : Type} [Inhabited α] (failAt : Option ℕ) (src dst : ℕ) :
    ℕ → ℕ → Mem α → (ℕ × Mem α) ⊕ Mem α
  | 0, _, m => Sum.inr m
  | c + 1, i, m =>
    if failAt = some i then Sum.inl (i, m)
    else
      transferAux failAt src dst c (i + 1)
        (m.insertLive (dst + i) ((m.lookupLive (src + i)).getD default))

/-- `reallocate(new_cap)` (private).  Faithful to the source, including:
the silent `return` when `new (std::nothrow)` yields null; the `empty()`
test evaluated after `begin_` has already been repointed at the new block;
the `catch (std::exception)` branch that destroys the partially
constructed new elements, frees the new block, restores `begin_` and then
returns normally; and the uncaught propagation of any other exception. -/
def reallocate {α : Type} [Inhabited α] (env : Env) (new_cap : ℕ)
    (cv : CV) (m : Mem α) : CV × Mem α × Outcome :=
  let old_size := cv.size
  let old_begin := cv.begin_
  if env.allocOK = false then
    -- begin_ = old_begin; return;
    (cv, m, Outcome.ok)
  else
    let base := m.next
    let m1 : Mem α :=
      { m with next := m.next + new_cap + 1,
               blocks := (base, new_cap) :: m.blocks,
               trace := m.trace ++ [Event.allocEv base new_cap] }
    if (CV.mk base cv.end_ cv.tail_).empty then
      -- no live elements observed: skip the transfer
      let m2 := m1.freeBlock old_begin
      (⟨base, base + old_size, base + new_cap⟩, m2, Outcome.ok)
    else
      match transferAux env.failAt old_begin base (cv.end_ - old_begin) 0 m1 with
      | Sum.inl im =>
        if env.failStd then
          let m2 := (destroyN base im.1 im.2).freeBlock base
          -- begin_ = old_begin; return;
          (cv, m2, Outcome.ok)
        else
          -- exception not derived from std::exception: propagates uncaught,
          -- begin_ still points at the new block, end_/tail_ stale
          (⟨base, cv.end_, cv.tail_⟩, im.2, Outcome.thrown)
      | Sum.inr m2 =>
        let m3 := (destroyN old_begin (cv.end_ - old_begin) m2).freeBlock old_begin
        (⟨base, base + old_size, base + new_cap⟩, m3, Outcome.ok)

/-- `reserve(new_cap)`. -/
def reserve {α : Type} [Inhabited α] (env : Env) (new_cap : ℕ)
    (cv : CV) (m : Mem α) : CV × Mem α × Outcome :=
  if cv.capacity < new_cap then reallocate env new_cap cv m else (cv, m, Outcome.ok)

/-- `scale_if_required()` (private). -/
def scale_if_required {α : Type} [Inhabited α] (env : Env)
    (cv : CV) (m : Mem α) : CV × Mem α × Outcome :=
  if cv.full then reserve env cv.get_new_scaled_capacity cv m
  else (cv, m, Outcome.ok)

/-- `push_back(t)`: `scale_if_required(); new (as_t(end_++)) T{ t };`.
The element is constructed at `end_` unconditionally — the source does not
re-check that the growth actually happened. -/
def push_back {α : Type} [Inhabited α] (env : Env) (t : α)
    (cv : CV) (m : Mem α) : CV × Mem α × Outcome :=
  match scale_if_required env cv m with
  | (cv1, m1, Outcome.ok) =>
    (⟨cv1.begin_, cv1.end_ + 1, cv1.tail_⟩, m1.insertLive cv1.end_ t, Outcome.ok)
  | (cv1, m1, Outcome.thrown) => (cv1, m1, Outcome.thrown)

/-- `emplace_back(args...)`: identical body to `push_back` except that the
element is constructed in place from `args...`; the model takes the
resulting value. -/
def emplace_back {α : Type} [Inhabited α] (env : Env) (t : α)
    (cv : CV) (m : Mem α) : CV × Mem α × Outcome :=
  match scale_if_required env cv m with
  | (cv1, m1, Outcome.ok) =>
    (⟨cv1.begin_, cv1.end_ + 1, cv1.tail_⟩, m1.insertLive cv1.end_ t, Outcome.ok)
  | (cv1, m1, Outcome.thrown) => (cv1, m1, Outcome.thrown)

/-- `clear()`: `std::destroy(as_t(begin_), as_t(end_)); delete[] begin_;`
then all three pointers are nulled. -/
def clear {α : Type} (cv : CV) (m : Mem α) : CV × Mem α :=
  let m1 := destroyN cv.begin_ (cv.end_ - cv.begin_) m
  let m2 := m1.freeBlock cv.begin_
  (⟨0, 0, 0⟩, m2)

/-- The default constructor: all three pointers null. -/
def defaultCtor : CV := ⟨0, 0, 0⟩

/-- `swap(a)`: exchanges the three pointers; touches no element, cannot
fail. -/
def CV.swap (a b : CV) : CV × CV := (b, a)

/-- `custom_vector(capacity)`: default-construct, then `reallocate`. -/
def ctor_cap {α : Type} [Inhabited α] (env : Env) (n : ℕ) (m : Mem α) :
    CV × Mem α × Outcome :=
  reallocate env n defaultCtor m

/-- The fill loop of `custom_vector(capacity, t)`: placement-constructs a
copy of `t` at `dst + i` for each `i` in `[i0, i0+c)`, ascending. -/
def fillN {α : Type} (dst : ℕ) (t : α) : ℕ → ℕ → Mem α → Mem α
  | 0, _, m => m
  | c + 1, i, m => fillN dst t c (i + 1) (m.insertLive (dst + i) t)

/-- `custom_vector(capacity, t)`: delegates to `custom_vector(capacity)`,
then copy-constructs `t` into every slot from `begin_` to `tail_` and sets
`end_ = tail_`. -/
def ctor_fill {α : Type} [Inhabited α] (env : Env) (n : ℕ) (t : α)
    (m : Mem α) : CV × Mem α × Outcome :=
  match ctor_cap (α := α) env n m with
  | (cv, m1, _) =>
    let m2 := fillN cv.begin_ t (cv.tail_ - cv.begin_) 0 m1
    (⟨cv.begin_, cv.tail_, cv.tail_⟩, m2, Outcome.ok)

/-- `std::uninitialized_copy(a.cbegin(), a.cend(), as_t(begin_))`:
copy-constructs the value at `src + i` into `dst + i` for `i` in
`[i0, i0+c)`, ascending. -/
def copyRange {α : Type} [Inhabited α] (src dst : ℕ) : ℕ → ℕ → Mem α → Mem α
  | 0, _, m => m
  | c + 1, i, m =>
    copyRange src dst c (i + 1)
      (m.insertLive (dst + i) ((m.lookupLive (src + i)).getD default))

/-- The copy constructor: delegates to `custom_vector(a.capacity())`, then
`uninitialized_copy` over `[a.cbegin(), a.cend())` and
`end_ = begin_ + a.size()`. -/
def ctor_copy {α : Type} [Inhabited α] (env : Env) (a : CV) (m : Mem α) :
    CV × Mem α × Outcome :=
  match ctor_cap (α := α) env a.capacity m with
  | (cv, m1, _) =>
    let m2 := copyRange a.begin_ cv.begin_ (a.end_ - a.begin_) 0 m1
    (⟨cv.begin_, cv.begin_ + a.size, cv.tail_⟩, m2, Outcome.ok)

/-- The move constructor: default-construct, then `swap` with the source.
Returns (new vector, moved-from source, memory); no element is touched. -/
def ctor_move {α : Type} (a : CV) (m : Mem α) : CV × CV × Mem α :=
  let p := CV.swap defaultCtor a
  (p.1, p.2, m)

/-- Move assignment `target = std::move(src)` through
`operator=(custom_vector a)`: the by-value parameter is move-constructed
from `src` (emptying it), swapped with `target`, and destroyed at the end
of `operator=`, clearing `target`'s previous storage.  Returns
(new target, moved-from source, memory). -/
def move_assign {α : Type} (target src : CV) (m : Mem α) :
    CV × CV × Mem α :=
  let p := ctor_move src m
  let q := CV.swap target p.1
  let r := clear q.2 p.2.2
  (q.1, p.2.1, r.2)

/-! ### Canonical well-formed containers

`mkCV b len cap` / `mkMem b l cap` is a container whose single raw block
starts at address `b ≥ 1` and holds `cap` slots, the first `l.length` of
which are live with the values of `l`.  Every state reachable through the
operations (absent failures) has this shape up to the choice of `b` and of
the allocator cursor. -/

/-- The live-object list of a canonical container: `l[i]` at `b + i`. -/
def mkLive {α : Type} (b : ℕ) : List α → List (ℕ × α)
  | [] => []
  | v :: l => (b, v) :: mkLive (b + 1) l

/-- Canonical pointer triple. -/
def mkCV (b len cap : ℕ) : CV := ⟨b, b + len, b + cap⟩

/-- Canonical heap for a single container. -/
def mkMem {α : Type} (b : ℕ) (l : List α) (cap : ℕ) : Mem α :=
  ⟨b + cap + 1, [(b, cap)], mkLive b l, []⟩

/-- Canonical heap around two disjoint containers: block 1 at `b` with
`cap1` slots and contents `l1`, block 2 right after it at `b + cap1 + 1`
with `cap2` slots and contents `l2`. -/
def mkMem2 {α : Type} (b : ℕ) (l1 : List α) (cap1 : ℕ) (l2 : List α)
    (cap2 : ℕ) : Mem α :=
  ⟨b + cap1 + 1 + cap2 + 1, [(b, cap1), (b + cap1 + 1, cap2)],
   mkLive b l1 ++ mkLive (b + cap1 + 1) l2, []⟩

/-- Test driver: pushes the given values in order, starting from the given
container state, and records `capacity()` after each `push_back`. -/
def pushAll (ts : List ℕ) (s : CV × Mem ℕ) : List ℕ :=
  match ts with
  | [] => []
  | t :: ts =>
    let r := push_back envOK t s.1 s.2
    r.1.capacity :: pushAll ts (r.1, r.2.1)

end CustomVector

namespace CustomVector

variable {α : Type}

/-! ### Arithmetic facts about the pointer observers -/

lemma ptrDiffToSize_nonneg (d : ℤ) (h0 : 0 ≤ d) (h1 : d < 2 ^ 64) :
    ptrDiffToSize d = d.toNat := by
  unfold ptrDiffToSize
  rw [Int.emod_eq_of_lt h0 h1]

lemma ptrDiffToSize_neg (d : ℤ) (h0 : d < 0) (h1 : -(2 ^ 64) ≤ d) :
    ptrDiffToSize d = (d + 2 ^ 64).toNat := by
  unfold ptrDiffToSize
  have h2 : d % 2 ^ 64 = (d + 2 ^ 64 * 1) % 2 ^ 64 := by
    rw [Int.add_mul_emod_self_left]
  rw [h2]
  rw [Int.emod_eq_of_lt (by omega) (by omega)]
  norm_num

lemma size_eq_of_pointers (b e : ℕ) (hb : 1 ≤ b) (hbe : b ≤ e)
    (hd : e - b < 2 ^ 64) : (CV.mk b e t).size = e - b := by
  show ptrDiffToSize (ptrDistance b e) = e - b
  unfold ptrDistance
  rw [if_pos ⟨by omega, by omega⟩]
  rw [ptrDiffToSize_nonneg _ (by omega) (by omega)]
  omega

lemma size_mkCV (b len cap : ℕ) (hb : 1 ≤ b) (hlen : len < 2 ^ 64) :
    (mkCV b len cap).size = len := by
  show (CV.mk b (b + len) (b + cap)).size = len
  rw [size_eq_of_pointers b (b + len) hb (by omega) (by omega)]
  omega

lemma capacity_eq_of_pointers (b t : ℕ) (hb : 1 ≤ b) (hbt : b ≤ t)
    (hd : t - b < 2 ^ 64) : (CV.mk b e t).capacity = t - b := by
  show ptrDiffToSize (ptrDistance b t) = t - b
  unfold ptrDistance
  rw [if_pos ⟨by omega, by omega⟩]
  rw [ptrDiffToSize_nonneg _ (by omega) (by omega)]
  omega

lemma capacity_mkCV (b len cap : ℕ) (hb : 1 ≤ b) (hcap : cap < 2 ^ 64) :
    (mkCV b len cap).capacity = cap := by
  show (CV.mk b (b + len) (b + cap)).capacity = cap
  rw [capacity_eq_of_pointers b (b + cap) hb (by omega) (by omega)]
  omega

/-- The `empty()` test evaluated mid-`reallocate` on the new `begin_` and
the old `end_`: the signed distance is negative, wraps to a huge `size_t`,
and the vector is seen as non-empty. -/
lemma empty_mix_false (B e t : ℕ) (he : 1 ≤ e) (heB : e < B)
    (hfit : B < 2 ^ 64) : (CV.mk B e t).empty = false := by
  show (ptrDiffToSize (ptrDistance B e) == 0) = false
  unfold ptrDistance
  rw [if_pos ⟨by omega, by omega⟩]
  rw [ptrDiffToSize_neg _ (by omega) (by omega)]
  rw [beq_eq_false_iff_ne]
  omega

/-! ### Lookup lemmas for the live-object association list -/

lemma find?_filter_ne (l : List (ℕ × α)) (a x : ℕ) :
    (l.filter (fun p => p.1 != a)).find? (fun p => p.1 == x) =
      if x = a then none else l.find? (fun p => p.1 == x) := by
  induction l with
  | nil =>
    simp only [List.filter_nil, List.find?_nil]
    split <;> rfl
  | cons hd tl ih =>
    rw [List.filter_cons]
    by_cases hhd : hd.1 = a
    · have hf : (hd.1 != a) = false := by simp [hhd]
      rw [hf, if_neg Bool.false_ne_true, ih]
      by_cases hxa : x = a
      · rw [if_pos hxa, if_pos hxa]
      · rw [if_neg hxa, if_neg hxa, List.find?_cons]
        have : (hd.1 == x) = false := by
          rw [beq_eq_false_iff_ne]
          omega
        rw [this]
    · have hf : (hd.1 != a) = true := by simp [hhd]
      rw [hf, if_pos rfl, List.find?_cons, List.find?_cons]
      cases h2 : (hd.1 == x) with
      | true =>
        have hx : hd.1 = x := by rwa [beq_iff_eq] at h2
        rw [if_neg (by omega)]
      | false =>
        rw [ih]

lemma lookupLive_destroyOne (m : Mem α) (a x : ℕ) :
    (m.destroyOne a).lookupLive x = if x = a then none else m.lookupLive x := by
  unfold Mem.destroyOne Mem.lookupLive
  simp only []
  rw [find?_filter_ne]
  split <;> rfl

lemma lookupLive_insertLive (m : Mem α) (a : ℕ) (v : α) (x : ℕ) :
    (m.insertLive a v).lookupLive x =
      if x = a then some v else m.lookupLive x := by
  unfold Mem.insertLive Mem.lookupLive
  simp only [List.find?_cons]
  by_cases h : x = a
  · subst h
    have : (x == x) = true := by simp
    rw [this]
    simp
  · have : ((a, v).1 == x) = false := by
      simp only [beq_eq_false_iff_ne, ne_eq]
      omega
    rw [this, if_neg h]

lemma insertLive_next (m : Mem α) (a : ℕ) (v : α) :
    (m.insertLive a v).next = m.next := rfl

lemma insertLive_blocks (m : Mem α) (a : ℕ) (v : α) :
    (m.insertLive a v).blocks = m.blocks := rfl

lemma lookupLive_destroyN (c : ℕ) :
    ∀ (s x : ℕ) (m : Mem α), (destroyN s c m).lookupLive x =
      if s ≤ x ∧ x < s + c then none else m.lookupLive x := by
  induction c with
  | zero =>
    intro s x m
    rw [if_neg (by omega)]
    rfl
  | succ c ih =>
    intro s x m
    simp only [destroyN]
    rw [ih, lookupLive_destroyOne]
    by_cases h1 : s + 1 ≤ x ∧ x < s + 1 + c
    · rw [if_pos h1, if_pos (by omega)]
    · rw [if_neg h1]
      by_cases h2 : x = s
      · rw [if_pos h2, if_pos (by omega)]
      · rw [if_neg h2, if_neg (by omega)]

lemma destroyN_next (c : ℕ) :
    ∀ (s : ℕ) (m : Mem α), (destroyN s c m).next = m.next := by
  induction c with
  | zero => intro s m; rfl
  | succ c ih => intro s m; simp only [destroyN]; rw [ih]; rfl

lemma destroyN_blocks (c : ℕ) :
    ∀ (s : ℕ) (m : Mem α), (destroyN s c m).blocks = m.blocks := by
  induction c with
  | zero => intro s m; rfl
  | succ c ih => intro s m; simp only [destroyN]; rw [ih]; rfl

lemma destroyN_trace (c : ℕ) :
    ∀ (s : ℕ) (m : Mem α), (destroyN s c m).trace =
      m.trace ++ (List.range c).map (fun k => Event.dtorEv (s + k)) := by
  induction c with
  | zero => intro s m; simp [destroyN]
  | succ c ih =>
    intro s m
    simp only [destroyN]
    rw [ih, List.range_succ_eq_map]
    simp only [Mem.destroyOne, List.map_cons, List.map_map, Nat.add_zero,
      List.append_assoc, List.singleton_append]
    congr 2
    apply List.map_congr_left
    intro k _
    simp only [Function.comp_apply, Nat.succ_eq_add_one]
    congr 1
    omega

end CustomVector

namespace CustomVector

variable {α : Type}

/-! ### Lemmas about the canonical live list -/

lemma mkLive_find (l : List α) :
    ∀ (b k : ℕ), ((mkLive b l).find? (fun p => p.1 == b + k)).map
      (fun p => p.2) = l[k]? := by
  induction l with
  | nil => intro b k; simp [mkLive]
  | cons v l ih =>
    intro b k
    simp only [mkLive, List.find?_cons]
    cases k with
    | zero =>
      have h : ((b, v).1 == b + 0) = true := by simp
      rw [h]
      simp
    | succ k =>
      have h : ((b, v).1 == b + (k + 1)) = false := by
        rw [beq_eq_false_iff_ne]
        simp only [ne_eq]
        omega
      rw [h]
      have h2 : b + (k + 1) = (b + 1) + k := by omega
      simp only [h2, List.getElem?_cons_succ]
      exact ih (b + 1) k

lemma mkLive_find_none (l : List α) :
    ∀ (b x : ℕ), (x < b ∨ b + l.length ≤ x) →
      (mkLive b l).find? (fun p => p.1 == x) = none := by
  induction l with
  | nil => intro b x _; rfl
  | cons v l ih =>
    intro b x h
    simp only [List.length_cons] at h
    simp only [mkLive, List.find?_cons]
    have hb : ((b, v).1 == x) = false := by
      rw [beq_eq_false_iff_ne]
      simp only [ne_eq]
      omega
    rw [hb]
    exact ih (b + 1) x (by omega)

lemma mkLive_filter (l : List α) :
    ∀ (b a : ℕ), a < b →
      (mkLive b l).filter (fun p => p.1 != a) = mkLive b l := by
  induction l with
  | nil => intro b a _; rfl
  | cons v l ih =>
    intro b a h
    simp only [mkLive, List.filter_cons]
    have hb : ((b, v).1 != a) = true := by
      simp only [bne_iff_ne, ne_eq]
      omega
    rw [hb, if_pos rfl, ih (b + 1) a (by omega)]

lemma lookupLive_of_live_mkLive (m : Mem α) (b : ℕ) (l : List α)
    (h : m.live = mkLive b l) (k : ℕ) : m.lookupLive (b + k) = l[k]? := by
  unfold Mem.lookupLive
  rw [h]
  exact mkLive_find l b k

lemma lookupLive_of_live_mkLive_none (m : Mem α) (b : ℕ) (l : List α)
    (h : m.live = mkLive b l) (x : ℕ) (hx : x < b ∨ b + l.length ≤ x) :
    m.lookupLive x = none := by
  unfold Mem.lookupLive
  rw [h, mkLive_find_none l b x hx]
  rfl

lemma getElem?_eq_some_getD (l : List α) [Inhabited α] (k : ℕ)
    (h : k < l.length) : l[k]? = some (l.getD k default) := by
  rw [List.getElem?_eq_getElem h, List.getD_eq_getElem l default h]

lemma destroyN_live_mkLive (l : List α) :
    ∀ (b : ℕ) (m : Mem α), m.live = mkLive b l →
      (destroyN b l.length m).live = [] := by
  induction l with
  | nil => intro b m h; exact h
  | cons v l ih =>
    intro b m h
    show (destroyN (b + 1) l.length (m.destroyOne b)).live = []
    apply ih (b + 1)
    show m.live.filter (fun p => p.1 != b) = mkLive (b + 1) l
    rw [h]
    simp only [mkLive, List.filter_cons]
    have hb : ((b, v).1 != b) = false := by simp
    rw [hb, if_neg Bool.false_ne_true]
    exact mkLive_filter l (b + 1) b (by omega)

/-! ### The transfer, copy and fill loops -/

lemma transferAux_none [Inhabited α] (b B : ℕ) (f : ℕ → α) (c : ℕ) :
    ∀ (i : ℕ) (m : Mem α),
      (∀ k, i ≤ k → k < i + c → m.lookupLive (b + k) = some (f k)) →
      b + i + c ≤ B →
      ∃ m', transferAux none b B c i m = Sum.inr m' ∧
        m'.next = m.next ∧ m'.blocks = m.blocks ∧
        (∀ x, x < B + i → m'.lookupLive x = m.lookupLive x) ∧
        (∀ k, i ≤ k → k < i + c → m'.lookupLive (B + k) = some (f k)) := by
  induction c with
  | zero =>
    intro i m _ _
    exact ⟨m, rfl, rfl, rfl, fun x _ => rfl, fun k hk1 hk2 => by omega⟩
  | succ c ih =>
    intro i m hold hsep
    have hv : m.lookupLive (b + i) = some (f i) := hold i (le_refl i) (by omega)
    simp only [transferAux]
    rw [if_neg (by simp)]
    obtain ⟨m', heq, hnext, hblocks, hpres, hnew⟩ :=
      ih (i + 1) (m.insertLive (B + i) ((m.lookupLive (b + i)).getD default))
        (by
          intro k hk1 hk2
          rw [lookupLive_insertLive, if_neg (by omega)]
          exact hold k (by omega) (by omega))
        (by omega)
    refine ⟨m', heq, ?_, ?_, ?_, ?_⟩
    · rw [hnext]; rfl
    · rw [hblocks]; rfl
    · intro x hx
      rw [hpres x (by omega), lookupLive_insertLive, if_neg (by omega)]
    · intro k hk1 hk2
      by_cases hk : k = i
      · subst hk
        rw [hpres (B + k) (by omega), lookupLive_insertLive, if_pos rfl, hv]
        rfl
      · exact hnew k (by omega) (by omega)

lemma transferAux_fail [Inhabited α] (b B : ℕ) (f : ℕ → α) (j : ℕ) (c : ℕ) :
    ∀ (i : ℕ) (m : Mem α),
      (∀ k, i ≤ k → k < i + c → m.lookupLive (b + k) = some (f k)) →
      b + i + c ≤ B → i ≤ j → j < i + c →
      ∃ m', transferAux (some j) b B c i m = Sum.inl (j, m') ∧
        m'.next = m.next ∧ m'.blocks = m.blocks ∧
        (∀ x, x < B + i → m'.lookupLive x = m.lookupLive x) ∧
        (∀ x, B + j ≤ x → m'.lookupLive x = m.lookupLive x) ∧
        (∀ k, i ≤ k → k < j → m'.lookupLive (B + k) = some (f k)) := by
  induction c with
  | zero => intro i m _ _ h1 h2; omega
  | succ c ih =>
    intro i m hold hsep hij hjc
    simp only [transferAux]
    by_cases hji : j = i
    · subst hji
      rw [if_pos rfl]
      exact ⟨m, rfl, rfl, rfl, fun x _ => rfl, fun x _ => rfl,
        fun k h1 h2 => by omega⟩
    · rw [if_neg (by simp only [Option.some.injEq]; omega)]
      obtain ⟨m', heq, hnext, hblocks, hpres, hpres2, hnew⟩ :=
        ih (i + 1) (m.insertLive (B + i) ((m.lookupLive (b + i)).getD default))
          (by
            intro k hk1 hk2
            rw [lookupLive_insertLive, if_neg (by omega)]
            exact hold k (by omega) (by omega))
          (by omega) (by omega) (by omega)
      have hv : m.lookupLive (b + i) = some (f i) := hold i (le_refl i) (by omega)
      refine ⟨m', heq, ?_, ?_, ?_, ?_, ?_⟩
      · rw [hnext]; rfl
      · rw [hblocks]; rfl
      · intro x hx
        rw [hpres x (by omega), lookupLive_insertLive, if_neg (by omega)]
      · intro x hx
        rw [hpres2 x (by omega), lookupLive_insertLive, if_neg (by omega)]
      · intro k hk1 hk2
        by_cases hk : k = i
        · subst hk
          rw [hpres (B + k) (by omega), lookupLive_insertLive, if_pos rfl, hv]
          rfl
        · exact hnew k (by omega) (by omega)

lemma copyRange_spec [Inhabited α] (b B : ℕ) (f : ℕ → α) (c : ℕ) :
    ∀ (i : ℕ) (m : Mem α),
      (∀ k, i ≤ k → k < i + c → m.lookupLive (b + k) = some (f k)) →
      b + i + c ≤ B →
      (copyRange b B c i m).next = m.next ∧
      (copyRange b B c i m).blocks = m.blocks ∧
      (∀ x, x < B + i → (copyRange b B c i m).lookupLive x = m.lookupLive x) ∧
      (∀ k, i ≤ k → k < i + c →
        (copyRange b B c i m).lookupLive (B + k) = some (f k)) := by
  induction c with
  | zero =>
    intro i m _ _
    exact ⟨rfl, rfl, fun x _ => rfl, fun k hk1 hk2 => by omega⟩
  | succ c ih =>
    intro i m hold hsep
    have hv : m.lookupLive (b + i) = some (f i) := hold i (le_refl i) (by omega)
    simp only [copyRange]
    obtain ⟨hnext, hblocks, hpres, hnew⟩ :=
      ih (i + 1) (m.insertLive (B + i) ((m.lookupLive (b + i)).getD default))
        (by
          intro k hk1 hk2
          rw [lookupLive_insertLive, if_neg (by omega)]
          exact hold k (by omega) (by omega))
        (by omega)
    refine ⟨by rw [hnext]; rfl, by rw [hblocks]; rfl, ?_, ?_⟩
    · intro x hx
      rw [hpres x (by omega), lookupLive_insertLive, if_neg (by omega)]
    · intro k hk1 hk2
      by_cases hk : k = i
      · subst hk
        rw [hpres (B + k) (by omega), lookupLive_insertLive, if_pos rfl, hv]
        rfl
      · exact hnew k (by omega) (by omega)

lemma fillN_spec (B : ℕ) (t : α) (c : ℕ) :
    ∀ (i : ℕ) (m : Mem α),
      (∀ x, x < B + i → (fillN B t c i m).lookupLive x = m.lookupLive x) ∧
      (∀ k, i ≤ k → k < i + c → (fillN B t c i m).lookupLive (B + k) = some t) := by
  induction c with
  | zero =>
    intro i m
    exact ⟨fun x _ => rfl, fun k hk1 hk2 => by omega⟩
  | succ c ih =>
    intro i m
    simp only [fillN]
    obtain ⟨hpres, hnew⟩ := ih (i + 1) (m.insertLive (B + i) t)
    refine ⟨?_, ?_⟩
    · intro x hx
      rw [hpres x (by omega), lookupLive_insertLive, if_neg (by omega)]
    · intro k hk1 hk2
      by_cases hk : k = i
      · subst hk
        rw [hpres (B + k) (by omega), lookupLive_insertLive, if_pos rfl]
      · exact hnew k (by omega) (by omega)

end CustomVector

namespace CustomVector

variable {α : Type}

/-! ### Small helpers about `freeBlock` and degenerate pointer values -/

lemma freeBlock_next (m : Mem α) (base : ℕ) :
    (m.freeBlock base).next = m.next := by
  unfold Mem.freeBlock
  split <;> rfl

lemma freeBlock_lookupLive (m : Mem α) (base x : ℕ) :
    (m.freeBlock base).lookupLive x = m.lookupLive x := by
  unfold Mem.freeBlock Mem.lookupLive
  split <;> rfl

lemma ptrDistance_end_zero (b : ℕ) : ptrDistance b 0 = 0 := by
  unfold ptrDistance
  rw [if_neg (by simp)]

lemma size_end_zero (b t : ℕ) : (CV.mk b 0 t).size = 0 := by
  show ptrDiffToSize (ptrDistance b 0) = 0
  rw [ptrDistance_end_zero]
  rfl

lemma empty_end_zero (b t : ℕ) : (CV.mk b 0 t).empty = true := by
  show ((CV.mk b 0 t).size == 0) = true
  rw [size_end_zero]
  rfl

/-! ### The growth computation at small capacities -/

lemma fl32OfNat_small (n : ℕ) (h : n < 2 ^ 24) : fl32OfNat n = n := by
  unfold fl32OfNat
  rw [if_pos h]

lemma floatMul3Half_small (f : ℕ) (h : 3 * f < 2 ^ 24) :
    floatMul3Half f = 3 * f / 2 := by
  simp only [floatMul3Half]
  rw [if_pos h]

lemma gnsc_small (cv : CV) (h : cv.capacity ≤ 5592405) :
    cv.get_new_scaled_capacity = max (3 * cv.capacity / 2) (cv.capacity + 1) := by
  unfold CV.get_new_scaled_capacity
  rw [fl32OfNat_small _ (by omega), floatMul3Half_small _ (by omega)]

/-! ### `custom_vector(capacity)` on an arbitrary heap -/

lemma ctor_cap_eq [Inhabited α] (n : ℕ) (m : Mem α) :
    ctor_cap envOK n m = (CV.mk m.next m.next (m.next + n),
      { m with next := m.next + n + 1, blocks := (m.next, n) :: m.blocks,
               trace := m.trace ++ [Event.allocEv m.next n] }, Outcome.ok) := by
  unfold ctor_cap reallocate defaultCtor
  rw [if_neg (by simp [envOK])]
  rw [if_pos (empty_end_zero m.next 0)]
  simp [Mem.freeBlock, size_end_zero]

/-! ### Successful reallocation of a canonical container -/

lemma size_mk_add (b len t : ℕ) (hb : 1 ≤ b) (hlen : len < 2 ^ 64) :
    (CV.mk b (b + len) t).size = len := by
  rw [size_eq_of_pointers b (b + len) hb (by omega) (by omega)]
  omega

lemma reallocate_success [Inhabited α] (b : ℕ) (l : List α) (cap n : ℕ)
    (hb : 1 ≤ b) (hlen : l.length ≤ cap) (_hcap : cap < n)
    (hfit : b + cap + 1 < 2 ^ 64) :
    ∃ m', reallocate envOK n (mkCV b l.length cap) (mkMem b l cap) =
        (CV.mk (b + cap + 1) (b + cap + 1 + l.length) (b + cap + 1 + n),
          m', Outcome.ok) ∧
      m'.blocks = [(b + cap + 1, n)] ∧
      m'.next = b + cap + 1 + n + 1 ∧
      (∀ k, k < l.length → m'.lookupLive (b + cap + 1 + k) = l[k]?) := by
  dsimp only [reallocate, envOK, mkMem, mkCV, List.nil_append]
  rw [if_neg (by simp)]
  rw [if_neg (by
    rw [empty_mix_false (b + cap + 1) (b + l.length) (b + cap)
      (by omega) (by omega) (by omega)]
    exact Bool.false_ne_true)]
  have hcount : b + l.length - b = l.length := by omega
  rw [hcount, size_mk_add b l.length (b + cap) hb (by omega)]
  obtain ⟨m2, heq, hnext, hblocks, hpres, hnew⟩ :=
    transferAux_none b (b + cap + 1) (fun k => l.getD k default) l.length 0
      (⟨b + cap + 1 + n + 1, (b + cap + 1, n) :: [(b, cap)], mkLive b l,
        [Event.allocEv (b + cap + 1) n]⟩ : Mem α)
      (by
        intro k _ hk2
        rw [lookupLive_of_live_mkLive _ b l rfl k,
          getElem?_eq_some_getD l k (by omega)])
      (by omega)
  rw [heq]
  dsimp only []
  refine ⟨(destroyN b l.length m2).freeBlock b, rfl, ?_, ?_, ?_⟩
  · show ((destroyN b l.length m2).freeBlock b).blocks = _
    unfold Mem.freeBlock
    rw [if_neg (by omega)]
    show (destroyN b l.length m2).blocks.filter (fun p => p.1 != b) = _
    rw [destroyN_blocks, hblocks]
    show ((b + cap + 1, n) :: [(b, cap)]).filter (fun p => p.1 != b) = _
    rw [List.filter_cons, List.filter_cons]
    have h1 : ((b + cap + 1, n).1 != b) = true := by
      simp only [bne_iff_ne, ne_eq]
      omega
    have h2 : ((b, cap).1 != b) = false := by simp
    rw [h1, h2, if_pos rfl, if_neg Bool.false_ne_true]
    rfl
  · show ((destroyN b l.length m2).freeBlock b).next = _
    rw [freeBlock_next, destroyN_next, hnext]
  · intro k hk
    show ((destroyN b l.length m2).freeBlock b).lookupLive (b + cap + 1 + k) =
      l[k]?
    rw [freeBlock_lookupLive, lookupLive_destroyN, if_neg (by omega)]
    have h3 := hnew k (by omega) (by omega)
    rw [h3, getElem?_eq_some_getD l k hk]

/-! ### Reallocation whose transfer throws a `std::exception` -/

lemma reallocate_transfer_fail [Inhabited α] (b : ℕ) (l : List α)
    (cap n j : ℕ) (hb : 1 ≤ b) (hlen : l.length ≤ cap) (_hcap : cap < n)
    (hfit : b + cap + 1 < 2 ^ 64) (hj : j < l.length) :
    ∃ m', reallocate ⟨true, some j, true⟩ n (mkCV b l.length cap)
        (mkMem b l cap) = (mkCV b l.length cap, m', Outcome.ok) ∧
      m'.blocks = [(b, cap)] ∧
      (∀ k, k < l.length → m'.lookupLive (b + k) = l[k]?) ∧
      (∀ x, b + cap + 1 ≤ x → m'.lookupLive x = none) := by
  dsimp only [reallocate, mkMem, mkCV, List.nil_append]
  rw [if_neg (by simp)]
  rw [if_neg (by
    rw [empty_mix_false (b + cap + 1) (b + l.length) (b + cap)
      (by omega) (by omega) (by omega)]
    exact Bool.false_ne_true)]
  have hcount : b + l.length - b = l.length := by omega
  rw [hcount]
  obtain ⟨m2, heq, hnext, hblocks, hpres, hpres2, hnew⟩ :=
    transferAux_fail b (b + cap + 1)
      (fun k => l.getD k default) j l.length 0
      (⟨b + cap + 1 + n + 1, (b + cap + 1, n) :: [(b, cap)], mkLive b l,
        [Event.allocEv (b + cap + 1) n]⟩ : Mem α)
      (by
        intro k _ hk2
        rw [lookupLive_of_live_mkLive _ b l rfl k,
          getElem?_eq_some_getD l k (by omega)])
      (by omega) (by omega) (by omega)
  rw [heq]
  dsimp only []
  rw [if_pos rfl]
  refine ⟨(destroyN (b + cap + 1) j m2).freeBlock (b + cap + 1),
    rfl, ?_, ?_, ?_⟩
  · show ((destroyN (b + cap + 1) j m2).freeBlock (b + cap + 1)).blocks = _
    unfold Mem.freeBlock
    rw [if_neg (by omega)]
    show (destroyN (b + cap + 1) j m2).blocks.filter
      (fun p => p.1 != (b + cap + 1)) = _
    rw [destroyN_blocks, hblocks]
    show ((b + cap + 1, n) :: [(b, cap)]).filter
      (fun p => p.1 != (b + cap + 1)) = _
    rw [List.filter_cons, List.filter_cons]
    have h1 : ((b + cap + 1, n).1 != (b + cap + 1)) = false := by simp
    have h2 : ((b, cap).1 != (b + cap + 1)) = true := by
      simp only [bne_iff_ne, ne_eq]
      omega
    rw [h1, h2, if_neg Bool.false_ne_true, if_pos rfl]
    rfl
  · intro k hk
    show ((destroyN (b + cap + 1) j m2).freeBlock (b + cap + 1)).lookupLive
      (b + k) = l[k]?
    rw [freeBlock_lookupLive, lookupLive_destroyN, if_neg (by omega)]
    have h3 := hpres (b + k) (by omega)
    rw [h3]
    exact lookupLive_of_live_mkLive _ b l rfl k
  · intro x hx
    show ((destroyN (b + cap + 1) j m2).freeBlock (b + cap + 1)).lookupLive x =
      none
    rw [freeBlock_lookupLive, lookupLive_destroyN]
    by_cases hxj : b + cap + 1 ≤ x ∧ x < b + cap + 1 + j
    · rw [if_pos hxj]
    · rw [if_neg hxj]
      have h4 := hpres2 x (by omega)
      rw [h4]
      exact lookupLive_of_live_mkLive_none _ b l rfl x (by omega)

end CustomVector

namespace CustomVector

variable {α : Type}

lemma freeBlock_live (m : Mem α) (base : ℕ) :
    (m.freeBlock base).live = m.live := by
  unfold Mem.freeBlock
  split <;> rfl

/-- Lookup of an element of the first container in a two-container heap. -/
lemma lookupLive_mkMem2_left (b : ℕ) (l1 : List α) (c1 : ℕ) (l2 : List α)
    (c2 k : ℕ) (hk : k < l1.length) :
    (mkMem2 b l1 c1 l2 c2).lookupLive (b + k) = l1[k]? := by
  unfold mkMem2 Mem.lookupLive
  show ((mkLive b l1 ++ mkLive (b + c1 + 1) l2).find?
    (fun p => p.1 == b + k)).map (fun p => p.2) = l1[k]?
  rw [List.find?_append]
  have h1 := mkLive_find l1 b k
  cases hfind : (mkLive b l1).find? (fun p => p.1 == b + k) with
  | some pr =>
    rw [hfind] at h1
    simpa [Option.or] using h1
  | none =>
    rw [hfind] at h1
    rw [List.getElem?_eq_getElem hk] at h1
    simp at h1

/-- `full()` on a canonical container filled to capacity. -/
lemma full_mkCV (b len : ℕ) (hb : 1 ≤ b) (hlen : len < 2 ^ 64) :
    (mkCV b len len).full = true := by
  unfold CV.full
  rw [size_mkCV b len len hb hlen, capacity_mkCV b len len hb hlen]
  simp

end CustomVector

namespace CustomVector

/-! ## Claim theorems -/

/-- C1 (counterexample): a concrete container holding one element, grown
from capacity 1 to 2 while the element transfer throws a
`std::exception`-derived error at index 0.  The code rolls the container
back (state restored, new block freed) but the call returns
`Outcome.ok`: the original error is swallowed by `catch (std::exception)`
and never reaches the caller — contradicting the claim that the error is
propagated. -/
theorem c1_counterexample :
    reallocate ⟨true, some 0, true⟩ 2 (mkCV 1 1 1) (mkMem 1 [(7 : ℕ)] 1) =
      (mkCV 1 1 1, ⟨6, [(1, 1)], mkLive 1 [7],
        [Event.allocEv 3 2, Event.freeEv 3]⟩, Outcome.ok) := by
  decide

/-- C1 (amended): when the per-element transfer throws a `std::exception`
during `reallocate`, the already-relocated elements in the new block are
destroyed, the new block is released, and the container's size, capacity
and elements are exactly as before the call — but the original error is
NOT propagated: the `catch` block returns normally, so the caller observes
a successful return (`Outcome.ok`), not the error. -/
theorem c1_rollback_but_error_swallowed (α : Type) [Inhabited α] (b : ℕ)
    (l : List α) (cap n j : ℕ) (hb : 1 ≤ b) (hlen : l.length ≤ cap)
    (hcap : cap < n) (hfit : b + cap + 1 < 2 ^ 64) (hj : j < l.length) :
    ∃ m', reallocate ⟨true, some j, true⟩ n (mkCV b l.length cap)
        (mkMem b l cap) = (mkCV b l.length cap, m', Outcome.ok) ∧
      (mkCV b l.length cap).size = l.length ∧
      (mkCV b l.length cap).capacity = cap ∧
      m'.blocks = [(b, cap)] ∧
      (∀ k, k < l.length → m'.lookupLive (b + k) = l[k]?) ∧
      (∀ x, b + cap + 1 ≤ x → m'.lookupLive x = none) := by
  obtain ⟨m', heq, hbl, hlk, hnone⟩ :=
    reallocate_transfer_fail b l cap n j hb hlen hcap hfit hj
  exact ⟨m', heq, size_mkCV b l.length cap hb (by omega),
    capacity_mkCV b l.length cap hb (by omega), hbl, hlk, hnone⟩

/-- C1 (witness): the amended theorem at a concrete input — two elements,
capacity 2 grown to 3, transfer throwing at index 1. -/
theorem c1_witness :
    ∃ m', reallocate ⟨true, some 1, true⟩ 3 (mkCV 2 2 2)
        (mkMem 2 [(4 : ℕ), 6] 2) = (mkCV 2 2 2, m', Outcome.ok) ∧
      (mkCV 2 2 2).size = 2 ∧
      (mkCV 2 2 2).capacity = 2 ∧
      m'.blocks = [(2, 2)] ∧
      (∀ k, k < 2 → m'.lookupLive (2 + k) = [(4 : ℕ), 6][k]?) ∧
      (∀ x, 5 ≤ x → m'.lookupLive x = none) :=
  c1_rollback_but_error_swallowed ℕ 2 [4, 6] 2 3 1 (by decide) (by decide)
    (by decide) (by decide) (by decide)

/-- C2 (counterexample): `reserve(5)` on a concrete container of capacity 1
while `new (std::nothrow)` fails.  The container and heap are unchanged, but
the outcome is `Outcome.ok` — the call returns normally, indistinguishable
from success; no `AllocationFailure` (the model's only error channel is
`Outcome.thrown`) is signaled to the caller, contradicting the claim. -/
theorem c2_counterexample :
    reserve ⟨false, none, false⟩ 5 (mkCV 1 1 1) (mkMem 1 [(7 : ℕ)] 1) =
      (mkCV 1 1 1, mkMem 1 [(7 : ℕ)] 1, Outcome.ok) := by
  decide

/-- C2 (amended): if raw memory acquisition fails, `reallocate` leaves the
container and the heap completely unmodified, but it does NOT signal any
error: it returns normally (`Outcome.ok`), silently. -/
theorem c2_alloc_failure_silent_noop (α : Type) [Inhabited α] (env : Env)
    (n : ℕ) (cv : CV) (m : Mem α) (h : env.allocOK = false) :
    reallocate env n cv m = (cv, m, Outcome.ok) := by
  unfold reallocate
  rw [h, if_pos rfl]

/-- C2 (witness): the amended theorem at a concrete input. -/
theorem c2_witness :
    reallocate ⟨false, none, true⟩ 8 (mkCV 1 2 4) (mkMem 1 [(3 : ℕ), 9] 4) =
      (mkCV 1 2 4, mkMem 1 [(3 : ℕ), 9] 4, Outcome.ok) :=
  c2_alloc_failure_silent_noop ℕ ⟨false, none, true⟩ 8 (mkCV 1 2 4)
    (mkMem 1 [(3 : ℕ), 9] 4) rfl

/-- C3 (code_bug): evaluation of the code at the failing input.  Start from
a default-constructed vector, push the value 7 (size = capacity = 1
afterwards), then push 9 while `new (std::nothrow)` fails.  `reallocate`
returns silently, `push_back` continues anyway and constructs the element
at address 2 — one past the end of the only allocated block `[1, 2)` (an
out-of-bounds write) — and increments `end_`.  Afterwards `size() = 2`,
`capacity() = 1`, and the call reports no failure, contradicting the claim
that a failed append leaves size, capacity and elements unchanged. -/
theorem c3_failed_append_mutates_and_overflows :
    (push_back ⟨false, none, false⟩ 9
      (push_back envOK 7 defaultCtor (memInit ℕ)).1
      (push_back envOK 7 defaultCtor (memInit ℕ)).2.1).1.size = 2 ∧
    (push_back ⟨false, none, false⟩ 9
      (push_back envOK 7 defaultCtor (memInit ℕ)).1
      (push_back envOK 7 defaultCtor (memInit ℕ)).2.1).1.capacity = 1 ∧
    (push_back ⟨false, none, false⟩ 9
      (push_back envOK 7 defaultCtor (memInit ℕ)).1
      (push_back envOK 7 defaultCtor (memInit ℕ)).2.1).2.2 = Outcome.ok ∧
    (push_back ⟨false, none, false⟩ 9
      (push_back envOK 7 defaultCtor (memInit ℕ)).1
      (push_back envOK 7 defaultCtor (memInit ℕ)).2.1).2.1.lookupLive 2 =
      some 9 ∧
    (push_back ⟨false, none, false⟩ 9
      (push_back envOK 7 defaultCtor (memInit ℕ)).1
      (push_back envOK 7 defaultCtor (memInit ℕ)).2.1).2.1.blocks =
      [(1, 1)] := by
  decide

/-- C4 (counterexample): at capacity C = 16777217 = 2^24 + 1, converting C
to `float` rounds to 16777216 (round-to-nearest-even at a 24-bit
significand), so the code's growth target is
`max((size_t)(16777216 * 1.5f), C+1) = 25165824`, while the claimed
formula `max(floor(C * 1.5), C + 1)` gives 25165825. -/
theorem c4_counterexample :
    CV.get_new_scaled_capacity (mkCV 1 16777217 16777217) = 25165824 ∧
    max (16777217 * 3 / 2) (16777217 + 1) = 25165825 ∧
    CV.get_new_scaled_capacity (mkCV 1 16777217 16777217) ≠
      max (16777217 * 3 / 2) (16777217 + 1) := by
  decide

/-- C5 (code_bug): evaluation of the code at the failing input.  Starting
from a default-constructed vector, push 3 (which allocates block `[1, 2)`
and makes the vector full with `begin_ = 1`, `end_ = 2`, `tail_ = 2`),
then push 5 while `new (std::nothrow)` fails.  The growth is silently
skipped but `end_` is still incremented: the resulting pointers are
`begin_ = 1`, `end_ = 3`, `tail_ = 2`, i.e. `tail_ < end_`, violating the
claimed invariant `begin_ <= end_ <= tail_` in a state reachable with a
failed allocation. -/
theorem c5_invariant_broken_after_failed_allocation :
    (push_back ⟨false, none, false⟩ 5
      (push_back envOK 3 defaultCtor (memInit ℕ)).1
      (push_back envOK 3 defaultCtor (memInit ℕ)).2.1).1 = CV.mk 1 3 2 ∧
    (push_back ⟨false, none, false⟩ 5
      (push_back envOK 3 defaultCtor (memInit ℕ)).1
      (push_back envOK 3 defaultCtor (memInit ℕ)).2.1).1.tail_ <
    (push_back ⟨false, none, false⟩ 5
      (push_back envOK 3 defaultCtor (memInit ℕ)).1
      (push_back envOK 3 defaultCtor (memInit ℕ)).2.1).1.end_ := by
  decide

end CustomVector

namespace CustomVector

/-- C4 (amended): a successful growth-triggering append from a full
canonical container of capacity C sets the new capacity to
`max((size_t)((float)C * 1.5f), C + 1)` computed in single precision; for
every C ≤ 5592405 (where the computation is exact, since 3*C < 2^24) this
equals `max(floor(C * 1.5), C + 1)`; and the capacity sequence produced by
five appends starting from an empty vector is 1, 2, 3, 4, 6. -/
theorem c4_growth_policy_single_precision (α : Type) [Inhabited α] (b : ℕ)
    (l : List α) (t : α) (hb : 1 ≤ b) (hsmall : l.length ≤ 5592405)
    (hfit : b + l.length + 1 < 2 ^ 64) :
    (push_back envOK t (mkCV b l.length l.length)
      (mkMem b l l.length)).2.2 = Outcome.ok ∧
    (push_back envOK t (mkCV b l.length l.length)
      (mkMem b l l.length)).1.capacity =
      max (3 * l.length / 2) (l.length + 1) ∧
    (push_back envOK t (mkCV b l.length l.length)
      (mkMem b l l.length)).1.size = l.length + 1 ∧
    pushAll [10, 11, 12, 13, 14] (defaultCtor, memInit ℕ) =
      [1, 2, 3, 4, 6] := by
  have hlen64 : l.length < 2 ^ 64 := by omega
  have hcapv := capacity_mkCV b l.length l.length hb hlen64
  have hgn := gnsc_small (mkCV b l.length l.length) (by rw [hcapv]; omega)
  rw [hcapv] at hgn
  have hscale : scale_if_required envOK (mkCV b l.length l.length)
      (mkMem b l l.length) =
      reallocate envOK (max (3 * l.length / 2) (l.length + 1))
        (mkCV b l.length l.length) (mkMem b l l.length) := by
    unfold scale_if_required
    rw [full_mkCV b l.length hb hlen64, if_pos rfl]
    unfold reserve
    rw [hgn, hcapv, if_pos (by omega)]
  obtain ⟨m', heq, _, _, _⟩ :=
    reallocate_success b l l.length (max (3 * l.length / 2) (l.length + 1))
      hb (le_refl _) (by omega) (by omega)
  have h1 : push_back envOK t (mkCV b l.length l.length)
      (mkMem b l l.length) =
      (CV.mk (b + l.length + 1) (b + l.length + 1 + l.length + 1)
        (b + l.length + 1 + max (3 * l.length / 2) (l.length + 1)),
       m'.insertLive (b + l.length + 1 + l.length) t, Outcome.ok) := by
    unfold push_back
    rw [hscale, heq]
  rw [h1]
  refine ⟨rfl, ?_, ?_, by decide⟩
  · rw [capacity_eq_of_pointers (b + l.length + 1)
      (b + l.length + 1 + max (3 * l.length / 2) (l.length + 1))
      (by omega) (by omega) (by omega)]
    omega
  · rw [size_eq_of_pointers (b + l.length + 1)
      (b + l.length + 1 + l.length + 1) (by omega) (by omega) (by omega)]
    omega

/-- C4 (witness): the amended theorem at a concrete input — a full
container of two elements; the new capacity is max(3, 3) = 3. -/
theorem c4_witness :
    (push_back envOK 9 (mkCV 1 2 2) (mkMem 1 [(5 : ℕ), 6] 2)).2.2 =
      Outcome.ok ∧
    (push_back envOK 9 (mkCV 1 2 2) (mkMem 1 [(5 : ℕ), 6] 2)).1.capacity =
      max (3 * 2 / 2) (2 + 1) ∧
    (push_back envOK 9 (mkCV 1 2 2) (mkMem 1 [(5 : ℕ), 6] 2)).1.size =
      2 + 1 ∧
    pushAll [10, 11, 12, 13, 14] (defaultCtor, memInit ℕ) =
      [1, 2, 3, 4, 6] :=
  c4_growth_policy_single_precision ℕ 1 [5, 6] 9 (by decide) (by decide)
    (by decide)

end CustomVector

namespace CustomVector

/-- C6 (confirmed): move construction hands the whole buffer over by a
pointer swap — the new vector gets exactly the source's three pointers,
the source becomes the null triple (size 0), and the heap (all live
elements, at their old addresses) is untouched, so no element is copied,
moved or destroyed.  Move assignment `b = move(a)` (through
`operator=(custom_vector a)` receiving a move-constructed temporary)
leaves the source-container values in place at their old addresses, owned
by the target; the target's previous elements are destroyed and its old
block freed by the dying temporary, and the trace records only those
destructor calls and that one deallocation — no element construction. -/
theorem c6_move_transfer (α : Type) (b : ℕ) (l1 : List α) (c1 : ℕ)
    (l2 : List α) (c2 : ℕ) (hb : 1 ≤ b) (h1 : l1.length ≤ c1) :
    (∀ (a : CV) (m : Mem α), ctor_move a m = (a, CV.mk 0 0 0, m)) ∧
    (CV.mk 0 0 0).size = 0 ∧
    (∃ m', move_assign (mkCV (b + c1 + 1) l2.length c2)
        (mkCV b l1.length c1) (mkMem2 b l1 c1 l2 c2) =
        (mkCV b l1.length c1, CV.mk 0 0 0, m') ∧
      (∀ k, k < l1.length → m'.lookupLive (b + k) = l1[k]?) ∧
      m'.trace = (List.range l2.length).map
        (fun k => Event.dtorEv (b + c1 + 1 + k)) ++
        [Event.freeEv (b + c1 + 1)]) := by
  refine ⟨fun a m => rfl, by decide, ?_⟩
  refine ⟨(destroyN (b + c1 + 1) l2.length
    (mkMem2 b l1 c1 l2 c2)).freeBlock (b + c1 + 1), ?_, ?_, ?_⟩
  · unfold move_assign ctor_move CV.swap clear defaultCtor
    dsimp only [mkCV]
    rw [Nat.add_sub_cancel_left]
  · intro k hk
    rw [freeBlock_lookupLive, lookupLive_destroyN, if_neg (by omega)]
    exact lookupLive_mkMem2_left b l1 c1 l2 c2 k hk
  · show ((destroyN (b + c1 + 1) l2.length
      (mkMem2 b l1 c1 l2 c2)).freeBlock (b + c1 + 1)).trace = _
    unfold Mem.freeBlock
    rw [if_neg (by omega)]
    dsimp only []
    rw [destroyN_trace]
    dsimp only [mkMem2]
    rw [List.nil_append]

/-- C6 (witness): the theorem at a concrete input — the source holds
[7, 9] in a block of capacity 3, the target holds [4] in a block of
capacity 2. -/
theorem c6_witness :
    (∀ (a : CV) (m : Mem ℕ), ctor_move a m = (a, CV.mk 0 0 0, m)) ∧
    (CV.mk 0 0 0).size = 0 ∧
    (∃ m', move_assign (mkCV 5 1 2) (mkCV 1 2 3)
        (mkMem2 1 [(7 : ℕ), 9] 3 [4] 2) =
        (mkCV 1 2 3, CV.mk 0 0 0, m') ∧
      (∀ k, k < 2 → m'.lookupLive (1 + k) = [(7 : ℕ), 9][k]?) ∧
      m'.trace = (List.range 1).map (fun k => Event.dtorEv (5 + k)) ++
        [Event.freeEv 5]) :=
  c6_move_transfer ℕ 1 [7, 9] 3 [4] 2 (by decide) (by decide)

end CustomVector

namespace CustomVector

variable {α : Type}

/-- Shape of the copy constructor on a canonical source container. -/
lemma ctor_copy_eq [Inhabited α] (b : ℕ) (l : List α) (cap : ℕ)
    (hb : 1 ≤ b) (hlen : l.length ≤ cap) (hfit : b + cap + 1 < 2 ^ 64) :
    ctor_copy envOK (mkCV b l.length cap) (mkMem b l cap) =
      (CV.mk (b + cap + 1) (b + cap + 1 + l.length) (b + cap + 1 + cap),
       copyRange b (b + cap + 1) l.length 0
         (⟨b + cap + 1 + cap + 1, (b + cap + 1, cap) :: [(b, cap)],
           mkLive b l, [Event.allocEv (b + cap + 1) cap]⟩ : Mem α),
       Outcome.ok) := by
  unfold ctor_copy
  rw [capacity_mkCV b l.length cap hb (by omega)]
  rw [ctor_cap_eq cap (mkMem b l cap)]
  dsimp only [mkMem, mkCV, List.nil_append]
  rw [size_mk_add b l.length (b + cap) hb (by omega)]
  rw [show b + l.length - b = l.length from by omega]

/-- C7 (confirmed): copy construction from a canonical container produces
a container with the same capacity and size, whose elements compare equal
index by index to the source's, placed in a freshly allocated block that
starts strictly beyond the source's storage (no storage is shared, so
mutating either container cannot change the other); the source's elements
are unchanged. -/
theorem c7_copy_independent (α : Type) [Inhabited α] (b : ℕ) (l : List α)
    (cap : ℕ) (hb : 1 ≤ b) (hlen : l.length ≤ cap)
    (hfit : b + cap + 1 < 2 ^ 64) :
    (ctor_copy envOK (mkCV b l.length cap) (mkMem b l cap)).2.2 =
      Outcome.ok ∧
    (ctor_copy envOK (mkCV b l.length cap) (mkMem b l cap)).1.capacity =
      (mkCV b l.length cap).capacity ∧
    (ctor_copy envOK (mkCV b l.length cap) (mkMem b l cap)).1.size =
      (mkCV b l.length cap).size ∧
    (mkCV b l.length cap).tail_ <
      (ctor_copy envOK (mkCV b l.length cap) (mkMem b l cap)).1.begin_ ∧
    (∀ k, k < l.length →
      (ctor_copy envOK (mkCV b l.length cap) (mkMem b l cap)).2.1.lookupLive
        ((ctor_copy envOK (mkCV b l.length cap) (mkMem b l cap)).1.begin_ + k) =
        l[k]? ∧
      (ctor_copy envOK (mkCV b l.length cap) (mkMem b l cap)).2.1.lookupLive
        (b + k) = l[k]?) := by
  rw [ctor_copy_eq b l cap hb hlen hfit]
  obtain ⟨hnext, hblocks, hpres, hnew⟩ :=
    copyRange_spec b (b + cap + 1) (fun k => l.getD k default) l.length 0
      (⟨b + cap + 1 + cap + 1, (b + cap + 1, cap) :: [(b, cap)],
        mkLive b l, [Event.allocEv (b + cap + 1) cap]⟩ : Mem α)
      (by
        intro k _ hk2
        rw [lookupLive_of_live_mkLive _ b l rfl k,
          getElem?_eq_some_getD l k (by omega)])
      (by omega)
  refine ⟨rfl, ?_, ?_, ?_, ?_⟩
  · rw [capacity_eq_of_pointers (b + cap + 1) (b + cap + 1 + cap)
      (by omega) (by omega) (by omega)]
    rw [capacity_mkCV b l.length cap hb (by omega)]
    omega
  · rw [size_eq_of_pointers (b + cap + 1) (b + cap + 1 + l.length)
      (by omega) (by omega) (by omega)]
    rw [size_mkCV b l.length cap hb (by omega)]
    omega
  · show b + cap < b + cap + 1
    omega
  · intro k hk
    constructor
    · show (copyRange b (b + cap + 1) l.length 0 _).lookupLive
        (b + cap + 1 + k) = l[k]?
      rw [hnew k (by omega) (by omega), getElem?_eq_some_getD l k hk]
    · show (copyRange b (b + cap + 1) l.length 0 _).lookupLive (b + k) =
        l[k]?
      rw [hpres (b + k) (by omega)]
      exact lookupLive_of_live_mkLive _ b l rfl k

/-- C7 (witness): the theorem at a concrete input — copying a container
holding [7, 9] at capacity 3. -/
theorem c7_witness :
    (ctor_copy envOK (mkCV 1 2 3) (mkMem 1 [(7 : ℕ), 9] 3)).2.2 =
      Outcome.ok ∧
    (ctor_copy envOK (mkCV 1 2 3) (mkMem 1 [(7 : ℕ), 9] 3)).1.capacity =
      (mkCV 1 2 3).capacity ∧
    (ctor_copy envOK (mkCV 1 2 3) (mkMem 1 [(7 : ℕ), 9] 3)).1.size =
      (mkCV 1 2 3).size ∧
    (mkCV 1 2 3).tail_ <
      (ctor_copy envOK (mkCV 1 2 3) (mkMem 1 [(7 : ℕ), 9] 3)).1.begin_ ∧
    (∀ k, k < 2 →
      (ctor_copy envOK (mkCV 1 2 3) (mkMem 1 [(7 : ℕ), 9] 3)).2.1.lookupLive
        ((ctor_copy envOK (mkCV 1 2 3) (mkMem 1 [(7 : ℕ), 9] 3)).1.begin_ + k) =
        [(7 : ℕ), 9][k]? ∧
      (ctor_copy envOK (mkCV 1 2 3) (mkMem 1 [(7 : ℕ), 9] 3)).2.1.lookupLive
        (1 + k) = [(7 : ℕ), 9][k]?) :=
  c7_copy_independent ℕ 1 [7, 9] 3 (by decide) (by decide) (by decide)

end CustomVector

namespace CustomVector

/-- C8 (confirmed): `reserve(n)` on a canonical container is a no-op (for
any environment, fallible or not) when n ≤ capacity; when n > capacity it
reallocates and, on success, the capacity is exactly n, the size is
unchanged, and the elements' values are preserved in order at the new
addresses. -/
theorem c8_reserve_exact (α : Type) [Inhabited α] (b : ℕ) (l : List α)
    (cap n : ℕ) (hb : 1 ≤ b) (hlen : l.length ≤ cap)
    (hfit : b + cap + 1 < 2 ^ 64) (hn : n < 2 ^ 64) :
    (n ≤ cap → ∀ env : Env, reserve env n (mkCV b l.length cap)
      (mkMem b l cap) = (mkCV b l.length cap, mkMem b l cap, Outcome.ok)) ∧
    (cap < n → ∃ m', reserve envOK n (mkCV b l.length cap) (mkMem b l cap) =
        (CV.mk (b + cap + 1) (b + cap + 1 + l.length) (b + cap + 1 + n),
          m', Outcome.ok) ∧
      (CV.mk (b + cap + 1) (b + cap + 1 + l.length)
        (b + cap + 1 + n)).capacity = n ∧
      (CV.mk (b + cap + 1) (b + cap + 1 + l.length)
        (b + cap + 1 + n)).size = (mkCV b l.length cap).size ∧
      (∀ k, k < l.length → m'.lookupLive (b + cap + 1 + k) = l[k]?)) := by
  constructor
  · intro hle env
    unfold reserve
    rw [capacity_mkCV b l.length cap hb (by omega), if_neg (by omega)]
  · intro hlt
    obtain ⟨m', heq, _, _, hlk⟩ := reallocate_success b l cap n hb hlen hlt hfit
    refine ⟨m', ?_, ?_, ?_, hlk⟩
    · unfold reserve
      rw [capacity_mkCV b l.length cap hb (by omega), if_pos hlt, heq]
    · rw [capacity_eq_of_pointers (b + cap + 1) (b + cap + 1 + n)
        (by omega) (by omega) (by omega)]
      omega
    · rw [size_eq_of_pointers (b + cap + 1) (b + cap + 1 + l.length)
        (by omega) (by omega) (by omega)]
      rw [size_mkCV b l.length cap hb (by omega)]
      omega

/-- C8 (witness): the theorem at a concrete input — a container holding
[5] at capacity 2; in particular the growth case for n = 4. -/
theorem c8_witness :
    (4 ≤ 2 → ∀ env : Env, reserve env 4 (mkCV 1 1 2)
      (mkMem 1 [(5 : ℕ)] 2) = (mkCV 1 1 2, mkMem 1 [(5 : ℕ)] 2,
        Outcome.ok)) ∧
    (2 < 4 → ∃ m', reserve envOK 4 (mkCV 1 1 2) (mkMem 1 [(5 : ℕ)] 2) =
        (CV.mk 4 5 8, m', Outcome.ok) ∧
      (CV.mk 4 5 8).capacity = 4 ∧
      (CV.mk 4 5 8).size = (mkCV 1 1 2).size ∧
      (∀ k, k < 1 → m'.lookupLive (4 + k) = [(5 : ℕ)][k]?)) :=
  c8_reserve_exact ℕ 1 [5] 2 4 (by decide) (by decide) (by decide)
    (by decide)

/-- C9 (confirmed): `clear()` on a canonical container runs the destructor
of each live element exactly once (the trace gains exactly one destructor
event per live address, in order, and the live set becomes empty),
releases the raw block, and resets the container to the null triple with
size 0 and capacity 0; `clear()` on a default-constructed (empty,
unallocated) container is a no-op on the heap. -/
theorem c9_clear_destroys_all_once (α : Type) (b : ℕ) (l : List α)
    (cap : ℕ) (hb : 1 ≤ b) :
    (∃ m', clear (mkCV b l.length cap) (mkMem b l cap) =
        (CV.mk 0 0 0, m') ∧
      m'.live = [] ∧ m'.blocks = [] ∧
      m'.trace = (List.range l.length).map
        (fun k => Event.dtorEv (b + k)) ++ [Event.freeEv b] ∧
      (CV.mk 0 0 0).size = 0 ∧ (CV.mk 0 0 0).capacity = 0) ∧
    clear (CV.mk 0 0 0) (memInit α) = (CV.mk 0 0 0, memInit α) := by
  constructor
  · refine ⟨(destroyN b l.length (mkMem b l cap)).freeBlock b,
      ?_, ?_, ?_, ?_, by decide, by decide⟩
    · unfold clear
      dsimp only [mkCV]
      rw [Nat.add_sub_cancel_left]
    · rw [freeBlock_live]
      exact destroyN_live_mkLive l b _ rfl
    · show ((destroyN b l.length (mkMem b l cap)).freeBlock b).blocks = []
      unfold Mem.freeBlock
      rw [if_neg (by omega)]
      dsimp only []
      rw [destroyN_blocks]
      dsimp only [mkMem]
      have h2 : ((b, cap).1 != b) = false := by simp
      rw [List.filter_cons, h2, if_neg Bool.false_ne_true]
      rfl
    · show ((destroyN b l.length (mkMem b l cap)).freeBlock b).trace = _
      unfold Mem.freeBlock
      rw [if_neg (by omega)]
      dsimp only []
      rw [destroyN_trace]
      dsimp only [mkMem]
      rw [List.nil_append]
  · rfl

/-- C9 (witness): the theorem at a concrete input — clearing a container
holding [7, 9] at capacity 3. -/
theorem c9_witness :
    (∃ m', clear (mkCV 2 2 3) (mkMem 2 [(7 : ℕ), 9] 3) =
        (CV.mk 0 0 0, m') ∧
      m'.live = [] ∧ m'.blocks = [] ∧
      m'.trace = (List.range 2).map (fun k => Event.dtorEv (2 + k)) ++
        [Event.freeEv 2] ∧
      (CV.mk 0 0 0).size = 0 ∧ (CV.mk 0 0 0).capacity = 0) ∧
    clear (CV.mk 0 0 0) (memInit ℕ) = (CV.mk 0 0 0, memInit ℕ) :=
  c9_clear_destroys_all_once ℕ 2 [7, 9] 3 (by decide)

/-- C10 (confirmed): the fill constructor `custom_vector(n, t)` (under
successful allocation) yields a container with size n and capacity n whose
every element at index k < n is a copy of t. -/
theorem c10_fill_ctor (α : Type) [Inhabited α] (n : ℕ) (t : α) (m : Mem α)
    (h1 : 1 ≤ m.next) (h2 : n < 2 ^ 64) :
    (ctor_fill envOK n t m).2.2 = Outcome.ok ∧
    (ctor_fill envOK n t m).1.size = n ∧
    (ctor_fill envOK n t m).1.capacity = n ∧
    (∀ k, k < n → (ctor_fill envOK n t m).2.1.lookupLive
      ((ctor_fill envOK n t m).1.begin_ + k) = some t) := by
  have hfill : ctor_fill envOK n t m =
      (CV.mk m.next (m.next + n) (m.next + n),
       fillN m.next t n 0
         { m with
             next := m.next + n + 1,
             blocks := (m.next, n) :: m.blocks,
             trace := m.trace ++ [Event.allocEv m.next n] },
       Outcome.ok) := by
    unfold ctor_fill
    rw [ctor_cap_eq n m]
    dsimp only []
    rw [Nat.add_sub_cancel_left]
  rw [hfill]
  obtain ⟨hpres, hnew⟩ := fillN_spec m.next t n 0
    ({ m with
         next := m.next + n + 1,
         blocks := (m.next, n) :: m.blocks,
         trace := m.trace ++ [Event.allocEv m.next n] } : Mem α)
  refine ⟨rfl, ?_, ?_, ?_⟩
  · rw [size_eq_of_pointers m.next (m.next + n) (by omega) (by omega)
      (by omega)]
    omega
  · rw [capacity_eq_of_pointers m.next (m.next + n) (by omega) (by omega)
      (by omega)]
    omega
  · intro k hk
    exact hnew k (by omega) (by omega)

/-- C10 (witness): the theorem at a concrete input —
`custom_vector(3, 42)` built on the initial heap. -/
theorem c10_witness :
    (ctor_fill envOK 3 42 (memInit ℕ)).2.2 = Outcome.ok ∧
    (ctor_fill envOK 3 42 (memInit ℕ)).1.size = 3 ∧
    (ctor_fill envOK 3 42 (memInit ℕ)).1.capacity = 3 ∧
    (∀ k, k < 3 → (ctor_fill envOK 3 42 (memInit ℕ)).2.1.lookupLive
      ((ctor_fill envOK 3 42 (memInit ℕ)).1.begin_ + k) = some 42) :=
  c10_fill_ctor ℕ 3 42 (memInit ℕ) (by decide) (by decide)

end CustomVector
